import Mathlib

/-!
Verification development for the `soft_ratatui` software rendering backend
(`src/soft_backend.rs`).

Modelling conventions:
* Machine integers (`u16`, `usize`, `i32`) are modelled as `Nat`/`Int`; the
  source never relies on wrap-around for these quantities.
* The `f32` scale factor is modelled as a nonnegative rational given by a
  numerator/denominator pair of naturals; the cast `(w as f32 * sf) as usize`
  is modelled as floor division, which is its real-number semantics.
* Rust panics (`unwrap`, panicking index operators) are modelled by `Option`:
  `none` means the operation panics.
* The repository modules `colors.rs` and `pixmap.rs` are not available; the
  definitions below that carry a doc comment starting with
  "Modelled from the spec:" are reconstructed from the specification text.
* The cosmic-text / swash shaping and rasterization collaborators are external
  to the repository; they are modelled as a deterministic oracle (`ShapeFn`)
  passed to the operations that consult them, matching the specification's
  requirement that a cache miss is always recomputable deterministically.
* Within one `draw`/`redraw`, pixel writes are the only pixmap mutations and
  no pixel data is ever read back (only the pixmap's width and height, which
  `put_pixel` preserves).  The embedding therefore computes the trace of
  `put_pixel` calls of a pass first and applies it once; this is observationally
  identical to the interleaved execution of the Rust code.
* The `HashSet<(u16, u16)>` redraw list is modelled as a duplicate-free list
  in insertion order; Rust's `HashSet` iteration order is unspecified, and no
  claim depends on the order in which its members are repainted.
-/

namespace Soft

/-- An RGB triple, one `Nat` per channel (0..255 in the source, `u8`). -/
structure Rgb where
  r : Nat
  g : Nat
  b : Nat
deriving DecidableEq

/-- An RGBA quadruple as consumed by `blend_rgba`. -/
structure Rgba where
  r : Nat
  g : Nat
  b : Nat
  a : Nat
deriving DecidableEq

/-- Abstract cell color of the host framework: default (`Reset`), a palette
index, or direct RGB. -/
inductive RatColor where
  | reset : RatColor
  | indexed : Nat → RatColor
  | rgbc : Nat → Nat → Nat → RatColor
deriving DecidableEq

/-- Modelled from the spec: `colors.rs` is not under `src/`.  The ColorResolver
maps an abstract cell color plus a role flag (foreground vs background,
disambiguating "default") to a concrete RGB triple.  The concrete values for
default and palette colors are not fixed by the spec; no claim depends on
them, only on the function being fixed and total. -/
def rat_to_rgb (c : RatColor) (is_fg : Bool) : Rgb :=
  match c with
  | RatColor.reset => if is_fg then ⟨255, 255, 255⟩ else ⟨0, 0, 0⟩
  | RatColor.indexed i => ⟨i % 256, i % 256, i % 256⟩
  | RatColor.rgbc r g b => ⟨r, g, b⟩

/-- Modelled from the spec: `colors.rs` is not under `src/`.  The dim transform
attenuates each channel by a fixed factor below one, with integer
truncation. -/
def dim_rgb (c : Rgb) : Rgb :=
  ⟨c.r * 7 / 10, c.g * 7 / 10, c.b * 7 / 10⟩

/-- Modelled from the spec: `colors.rs` is not under `src/`.  Standard alpha
composite per channel, `out = (fg·α + bg·(255-α)) / 255` with the foreground
alpha normalized over 255 (the background is passed fully opaque by the
backend). -/
def blend_rgba (fg : Rgba) (bg : Rgba) : Rgb :=
  ⟨(fg.r * fg.a + bg.r * (255 - fg.a)) / 255,
   (fg.g * fg.a + bg.g * (255 - fg.a)) / 255,
   (fg.b * fg.a + bg.b * (255 - fg.a)) / 255⟩

/-- Modelled from the spec: `pixmap.rs` is not under `src/`.  A flat
width × height RGB raster; `data` is the row-major list of pixels with
invariant `data.length = width * height` at construction. -/
structure RgbPixmap where
  width : Nat
  height : Nat
  data : List Rgb
deriving DecidableEq

/-- Modelled from the spec: fresh pixmap allocation (contents unspecified by
the spec; the backend always clears or fully redraws right after). -/
def RgbPixmap.new (w h : Nat) : RgbPixmap :=
  ⟨w, h, List.replicate (w * h) ⟨0, 0, 0⟩⟩

/-- Modelled from the spec: point write at (x, y), row-major index. -/
def RgbPixmap.put_pixel (p : RgbPixmap) (x y : Nat) (c : Rgb) : RgbPixmap :=
  { p with data := p.data.set (y * p.width + x) c }

/-- Modelled from the spec: full uniform fill. -/
def RgbPixmap.fill (p : RgbPixmap) (c : Rgb) : RgbPixmap :=
  { p with data := List.replicate (p.width * p.height) c }

/-- One recorded `put_pixel` call. -/
structure Write where
  wx : Nat
  wy : Nat
  color : Rgb
deriving DecidableEq

/-- Replay a trace of `put_pixel` calls, first to last. -/
def applyWrites (ws : List Write) (p : RgbPixmap) : RgbPixmap :=
  match ws with
  | [] => p
  | w :: rest => applyWrites rest (p.put_pixel w.wx w.wy w.color)

/-- Style modifier set of a host-framework cell (ratatui `Modifier` bitflags). -/
structure Modifiers where
  bold : Bool
  italic : Bool
  underlined : Bool
  crossed_out : Bool
  dim : Bool
  reversed : Bool
  hidden : Bool
  slow_blink : Bool
  rapid_blink : Bool
deriving DecidableEq

/-- The all-clear modifier set. -/
def noMods : Modifiers := ⟨false, false, false, false, false, false, false, false, false⟩

/-- Host-framework cell: a grapheme (as a character list), foreground and
background color specs, and the modifier set. -/
structure Cell where
  symbol : List Char
  fg : RatColor
  bg : RatColor
  modifier : Modifiers
deriving DecidableEq

/-- ratatui `Cell::EMPTY`: a single space with `Reset` colors, no modifiers. -/
def defaultCell : Cell := ⟨[' '], RatColor.reset, RatColor.reset, noMods⟩

/-- ratatui `Buffer` at origin: a row-major grid of cells. -/
structure TermBuffer where
  width : Nat
  height : Nat
  cells : List Cell
deriving DecidableEq

/-- ratatui `Buffer::empty`: all cells are `Cell::EMPTY`. -/
def TermBuffer.empty (w h : Nat) : TermBuffer :=
  ⟨w, h, List.replicate (w * h) defaultCell⟩

/-- ratatui `Buffer::cell`: `some` exactly on coordinates inside the area. -/
def TermBuffer.cellAt (b : TermBuffer) (x y : Nat) : Option Cell :=
  if x < b.width ∧ y < b.height then some (b.cells.getD (y * b.width + x) defaultCell)
  else none

/-- ratatui `buffer[(x, y)] = c`: the `Index`/`IndexMut` implementations panic
(here: `none`) when the coordinate lies outside the buffer's area. -/
def TermBuffer.setCell (b : TermBuffer) (x y : Nat) (c : Cell) : Option TermBuffer :=
  if x < b.width ∧ y < b.height then some { b with cells := b.cells.set (y * b.width + x) c }
  else none

/-- ratatui `Buffer::reset`: every cell becomes `Cell::EMPTY`. -/
def TermBuffer.reset (b : TermBuffer) : TermBuffer :=
  { b with cells := List.replicate (b.width * b.height) defaultCell }

/-- ratatui `Buffer::resize`: the flat content is truncated or padded with
`Cell::EMPTY` to the new area's length. -/
def TermBuffer.resizeTo (b : TermBuffer) (w h : Nat) : TermBuffer :=
  let len := w * h
  let cells :=
    if len < b.cells.length then b.cells.take len
    else b.cells ++ List.replicate (len - b.cells.length) defaultCell
  ⟨w, h, cells⟩

/-- Rasterized grayscale glyph bitmap with its placement, as returned by the
swash cache: `left`/`top` placement offsets, bitmap dimensions, and the alpha
bytes in row-major order (`u8`, hence `Fin 256`). -/
structure GlyphImage where
  left : Int
  top : Int
  iwidth : Nat
  iheight : Nat
  idata : List (Fin 256)
deriving DecidableEq

/-- One shaped glyph: physical pen position, the layout run's baseline, and the
optional rasterized image (`none` models a rasterizer miss). -/
structure PlacedGlyph where
  px : Int
  py : Int
  line_y : Int
  image : Option GlyphImage
deriving DecidableEq

/-- The shaping and rasterization collaborators folded into one deterministic
oracle: decorated text, bold flag, italic flag ↦ placed glyphs. -/
def ShapeFn : Type := List Char → Bool → Bool → List PlacedGlyph

/-- The backend state (`SoftBackend` struct), minus the external collaborators
(`font_system`, `cosmic_buffer`, `swash_cache`), which are modelled by the
`ShapeFn` oracle parameter of the operations.  The `f32` scale factor is
carried as `scale_num / scale_den`. -/
structure SoftBackend where
  buffer : TermBuffer
  cursor : Bool
  pos : Nat × Nat
  char_width : Nat
  char_height : Nat
  scale_num : Nat
  scale_den : Nat
  blink_counter : Nat
  blinking_fast : Bool
  blinking_slow : Bool
  rgb_pixmap : RgbPixmap
  always_redraw_list : List (Nat × Nat)
deriving DecidableEq

/-- Physical cell width: `(char_width as f32 * scale_factor) as usize`,
i.e. the floor of `char_width · scale`. -/
def physCellW (s : SoftBackend) : Nat :=
  s.char_width * s.scale_num / s.scale_den

/-- Physical cell height: `(char_height as f32 * scale_factor) as usize`. -/
def physCellH (s : SoftBackend) : Nat :=
  s.char_height * s.scale_num / s.scale_den

/-- The data a single cell-painting call actually reads from the backend:
grid, character metrics, pixmap dimensions, blink flags.  Pixel data and the
redraw list are never read while painting. -/
structure RenderEnv where
  buffer : TermBuffer
  pcw : Nat
  pch : Nat
  pw : Nat
  ph : Nat
  blinking_fast : Bool
  blinking_slow : Bool
deriving DecidableEq

/-- Project the painting environment out of a backend state. -/
def SoftBackend.env (s : SoftBackend) : RenderEnv :=
  ⟨s.buffer, physCellW s, physCellH s, s.rgb_pixmap.width, s.rgb_pixmap.height,
   s.blinking_fast, s.blinking_slow⟩

/-- Source `add_strikeout`: interleave the combining long stroke overlay
U+0336 after every character. -/
def add_strikeout (text : List Char) : List Char :=
  text.flatMap (fun c => [c, '\u0336'])

/-- Source `add_underline`: interleave the combining low line U+0332 after
every character. -/
def add_underline (text : List Char) : List Char :=
  text.flatMap (fun c => [c, '\u0332'])

/-- Option-valued `mapM` specialized to lists, written out so that its
equations are available for induction. -/
def optMapM (f : α → Option β) : List α → Option (List β)
  | [] => some []
  | a :: l =>
    match f a, optMapM f l with
    | some b, some bs => some (b :: bs)
    | _, _ => none

/-- Insert a coordinate into the redraw list if absent (the deterministic
model of `HashSet::insert`; the set is kept as its insertion-ordered list). -/
def insertCoord (p : Nat × Nat) (l : List (Nat × Nat)) : List (Nat × Nat) :=
  if p ∈ l then l else l ++ [p]

/-- The iteration order of `redraw`: for each column x, every row y. -/
def coordList (w h : Nat) : List (Nat × Nat) :=
  (List.range w).flatMap (fun x => (List.range h).map (fun y => (x, y)))

/-- The decorated text produced in `draw_cell_text` before shaping: strikeout
is applied first when `CROSSED_OUT` is set, then underline on the result when
`UNDERLINED` is set. -/
def shapedText (c : Cell) : List Char :=
  let t1 := if c.modifier.crossed_out then add_strikeout c.symbol else c.symbol
  if c.modifier.underlined then add_underline t1 else t1

/-- The background color of `draw_cell_text` after the hidden and reversed
substitutions. -/
def textBgColor (c : Cell) : Rgb :=
  let rat_fg := if c.modifier.hidden then c.bg else c.fg
  if c.modifier.reversed then rat_to_rgb rat_fg true else rat_to_rgb c.bg false

/-- The foreground color of `draw_cell_text` before the blink substitutions:
hidden and reversed resolution, then dim attenuation. -/
def textFgBase (c : Cell) : Rgb :=
  let rat_fg := if c.modifier.hidden then c.bg else c.fg
  let fg0 := if c.modifier.reversed then rat_to_rgb c.bg false else rat_to_rgb rat_fg true
  if c.modifier.dim then dim_rgb fg0 else fg0

/-- The `put_pixel` trace of compositing one rasterized glyph in
`draw_cell_text`: row-major walk over the bitmap, alpha index advancing once
per inner iteration, negative target coordinates skipped, then clipped to the
pixmap bounds, each surviving pixel blended over the opaque background. -/
def glyphWrites (begin_x begin_y pw ph : Nat) (fg bg : Rgb) (g : PlacedGlyph) : List Write :=
  match g.image with
  | none => []
  | some img =>
    (List.range img.iheight).flatMap (fun (off_y : Nat) =>
      (List.range img.iwidth).filterMap (fun (off_x : Nat) =>
        let real_x : Int := g.px + img.left + (off_x : Int)
        let real_y : Int := g.line_y + g.py + (- img.top) + (off_y : Int)
        if 0 ≤ real_x ∧ 0 ≤ real_y then
          let get_x := begin_x + real_x.toNat
          let get_y := begin_y + real_y.toNat
          if get_x < pw ∧ get_y < ph then
            let alpha : Nat := (img.idata.getD (off_y * img.iwidth + off_x) 0).val
            some ⟨get_x, get_y,
              blend_rgba ⟨fg.r, fg.g, fg.b, alpha⟩ ⟨bg.r, bg.g, bg.b, 255⟩⟩
          else none
        else none))

/-- Source `draw_cell_background`: early-skip when the cell rectangle's origin
is outside the pixmap, otherwise unwrap the cell (panic when out of the grid),
resolve the background honoring reversed and dim, and fill the physical
rectangle clipped per pixel to the pixmap bounds.  Returns the `put_pixel`
trace. -/
def draw_cell_background (e : RenderEnv) (xik yik : Nat) : Option (List Write) :=
  let begin_x := xik * e.pcw
  let begin_y := yik * e.pch
  if e.pw ≤ begin_x ∨ e.ph ≤ begin_y then some []
  else
    match e.buffer.cellAt xik yik with
    | none => none
    | some rat_cell =>
      let bg0 :=
        if rat_cell.modifier.reversed then rat_to_rgb rat_cell.fg true
        else rat_to_rgb rat_cell.bg false
      let bg_color := if rat_cell.modifier.dim then dim_rgb bg0 else bg0
      some ((List.range e.pch).flatMap (fun y =>
        (List.range e.pcw).filterMap (fun x =>
          let px := begin_x + x
          let py := begin_y + y
          if px < e.pw ∧ py < e.ph then some ⟨px, py, bg_color⟩ else none)))

/-- Source `draw_cell_text`: unwrap the cell (panic when out of the grid),
resolve colors honoring hidden, reversed and dim, synthesize strikeout and
underline overlays, perform the slow- then rapid-blink foreground
substitutions, shape the decorated text and composite every rasterized glyph.
Returns the `put_pixel` trace together with the flag telling whether the cell
was inserted into `always_redraw_list` (it is, exactly when a blink modifier
is present). -/
def draw_cell_text (shape : ShapeFn) (e : RenderEnv) (xik yik : Nat) :
    Option (List Write × Bool) :=
  match e.buffer.cellAt xik yik with
  | none => none
  | some rat_cell =>
    let begin_x := xik * e.pcw
    let begin_y := yik * e.pch
    let bg_color := textBgColor rat_cell
    let fg1 := textFgBase rat_cell
    let fg2 := if rat_cell.modifier.slow_blink && e.blinking_slow then bg_color else fg1
    let fg3 := if rat_cell.modifier.rapid_blink && e.blinking_fast then bg_color else fg2
    let glyphs := shape (shapedText rat_cell) rat_cell.modifier.bold rat_cell.modifier.italic
    some (glyphs.flatMap (glyphWrites begin_x begin_y e.pw e.ph fg3 bg_color),
      rat_cell.modifier.slow_blink || rat_cell.modifier.rapid_blink)

/-- The text pass over a list of coordinates: concatenated `put_pixel` trace
plus, in pass order, the coordinates that were inserted into the redraw list. -/
def textPass (shape : ShapeFn) (e : RenderEnv) : List (Nat × Nat) → Option (List Write × List (Nat × Nat))
  | [] => some ([], [])
  | p :: rest =>
    match draw_cell_text shape e p.1 p.2, textPass shape e rest with
    | some (ws, b), some (wsR, bsR) => some (ws ++ wsR, (if b then [p] else []) ++ bsR)
    | _, _ => none

/-- Source `update_blinking`: advance the counter modulo 200 and recompute both
blink predicates from the new value. -/
def update_blinking (s : SoftBackend) : SoftBackend :=
  let c := (s.blink_counter + 1) % 200
  { s with blink_counter := c,
           blinking_fast := decide (c % 100 ≤ 5),
           blinking_slow := decide (20 ≤ c ∧ c ≤ 25) }

/-- The grid updates of `draw`: each content item is written through the
panicking index operator, in iterator order. -/
def writeContent (b : TermBuffer) : List (Nat × Nat × Cell) → Option TermBuffer
  | [] => some b
  | (x, y, c) :: rest =>
    match b.setCell x y c with
    | none => none
    | some b2 => writeContent b2 rest

/-- The two-phase paint shared by `draw` and `redraw`: the full background
pass over the repaint list, then the full text pass over the same list.
Returns the concatenated `put_pixel` trace (all background writes, then all
text writes) and the coordinates inserted into the redraw list, in pass
order. -/
def paint (shape : ShapeFn) (e : RenderEnv) (cells : List (Nat × Nat)) :
    Option (List Write × List (Nat × Nat)) :=
  match optMapM (fun p => draw_cell_background e p.1 p.2) cells with
  | none => none
  | some bgs =>
    match textPass shape e cells with
    | none => none
    | some (tws, blinkers) => some (bgs.flatten ++ tws, blinkers)

/-- Apply the outcome of a paint pass to the backend state: install the
updated grid, replay the `put_pixel` trace, and fold the encountered blinking
coordinates into `always_redraw_list`. -/
def paintResult (s : SoftBackend) (buf : TermBuffer) (ws : List Write)
    (blinkers : List (Nat × Nat)) : SoftBackend :=
  { s with
    buffer := buf
    rgb_pixmap := applyWrites ws s.rgb_pixmap
    always_redraw_list := blinkers.foldl (fun acc p => insertCoord p acc) s.always_redraw_list }

/-- Source `redraw`: reset `always_redraw_list`, then a full background pass
over every grid coordinate, then a full text pass over the same coordinates,
rebuilding the redraw list from the blinking cells encountered.  Returns the
new state together with the whole `put_pixel` trace. -/
def redraw (shape : ShapeFn) (s : SoftBackend) : Option (SoftBackend × List Write) :=
  match paint shape s.env (coordList s.buffer.width s.buffer.height) with
  | none => none
  | some (ws, blinkers) =>
    some (paintResult { s with always_redraw_list := [] } s.buffer ws blinkers, ws)

/-- Source `Backend::draw`: advance the blink clock, write the content cells
into the grid (panicking on out-of-area coordinates), form the repaint list as
the content coordinates followed by the pre-pass snapshot of
`always_redraw_list`, run the background pass over the whole repaint list and
then the text pass over the whole repaint list, growing the redraw list with
the blinking cells encountered. -/
def draw (shape : ShapeFn) (s : SoftBackend) (content : List (Nat × Nat × Cell)) :
    Option (SoftBackend × List Write) :=
  match writeContent (update_blinking s).buffer content with
  | none => none
  | some buf =>
    match paint shape { update_blinking s with buffer := buf }.env
        (content.map (fun t => (t.1, t.2.1)) ++ (update_blinking s).always_redraw_list) with
    | none => none
    | some (ws, blinkers) =>
      some (paintResult (update_blinking s) buf ws blinkers, ws)

/-- Source `Backend::clear`: reset every grid cell to `Cell::EMPTY` and fill
the pixmap with the resolved background color of `Cell::EMPTY`. -/
def clear (s : SoftBackend) : SoftBackend :=
  { s with buffer := s.buffer.reset,
           rgb_pixmap := s.rgb_pixmap.fill (rat_to_rgb defaultCell.bg false) }

/-- Source `resize`: resize the grid, reallocate the pixmap to
physical cell size times the new grid size, then a full redraw. -/
def resize (shape : ShapeFn) (s : SoftBackend) (width height : Nat) :
    Option (SoftBackend × List Write) :=
  let s1 := { s with buffer := s.buffer.resizeTo width height }
  let s2 := { s1 with rgb_pixmap := RgbPixmap.new (physCellW s1 * width) (physCellH s1 * height) }
  redraw shape s2

/-- Source `set_font_size`: the reference-glyph measurement is delegated to the
shaping collaborators, so its measured placement is taken as an oracle input;
the logical cell size applies the fixed shrink factors 0.9 and 0.85 with
integer truncation, the pixmap is reallocated, and a full redraw runs. -/
def set_font_size (shape : ShapeFn) (measured_w measured_h : Nat) (s : SoftBackend) :
    Option (SoftBackend × List Write) :=
  let cw := measured_w * 9 / 10
  let ch := measured_h * 85 / 100
  let s1 := { s with char_width := cw, char_height := ch }
  let pm := RgbPixmap.new (physCellW s1 * s1.buffer.width) (physCellH s1 * s1.buffer.height)
  let s2 := { s1 with rgb_pixmap := pm }
  redraw shape s2

/-- Source `hide_cursor`. -/
def hide_cursor (s : SoftBackend) : SoftBackend := { s with cursor := false }

/-- Source `show_cursor`. -/
def show_cursor (s : SoftBackend) : SoftBackend := { s with cursor := true }

/-- Source `set_cursor_position`. -/
def set_cursor_position (s : SoftBackend) (p : Nat × Nat) : SoftBackend := { s with pos := p }

/-- Source `flush`: a no-op. -/
def flush (s : SoftBackend) : SoftBackend := s

/-- The last write of a trace hitting flat index i of a pixmap of width W and
data length len, if any.  Later writes shadow earlier ones. -/
def lastHit (W len : Nat) : List Write → Nat → Option Rgb
  | [], _ => none
  | w :: ws, i =>
    match lastHit W len ws i with
    | some c => some c
    | none => if w.wy * W + w.wx = i ∧ i < len then some w.color else none

theorem put_pixel_width (p : RgbPixmap) (x y : Nat) (c : Rgb) :
    (p.put_pixel x y c).width = p.width := rfl

theorem put_pixel_height (p : RgbPixmap) (x y : Nat) (c : Rgb) :
    (p.put_pixel x y c).height = p.height := rfl

theorem put_pixel_length (p : RgbPixmap) (x y : Nat) (c : Rgb) :
    (p.put_pixel x y c).data.length = p.data.length := List.length_set ..

theorem applyWrites_width (ws : List Write) : ∀ p, (applyWrites ws p).width = p.width := by
  induction ws with
  | nil => intro p; rfl
  | cons w rest ih => intro p; rw [applyWrites, ih, put_pixel_width]

theorem applyWrites_height (ws : List Write) : ∀ p, (applyWrites ws p).height = p.height := by
  induction ws with
  | nil => intro p; rfl
  | cons w rest ih => intro p; rw [applyWrites, ih, put_pixel_height]

theorem applyWrites_length (ws : List Write) :
    ∀ p, (applyWrites ws p).data.length = p.data.length := by
  induction ws with
  | nil => intro p; rfl
  | cons w rest ih => intro p; rw [applyWrites, ih, put_pixel_length]

theorem applyWrites_getElem (ws : List Write) :
    ∀ (p : RgbPixmap) (i : Nat),
      (applyWrites ws p).data[i]? =
        match lastHit p.width p.data.length ws i with
        | some c => some c
        | none => p.data[i]? := by
  induction ws with
  | nil => intro p i; rfl
  | cons w rest ih =>
    intro p i
    rw [applyWrites, ih]
    have hw : (p.put_pixel w.wx w.wy w.color).width = p.width := rfl
    have hl : (p.put_pixel w.wx w.wy w.color).data.length = p.data.length := List.length_set ..
    rw [hw, hl]
    show _ = (match lastHit p.width p.data.length (w :: rest) i with
      | some c => some c
      | none => p.data[i]?)
    rw [lastHit]
    cases h : lastHit p.width p.data.length rest i with
    | some c => rfl
    | none =>
      by_cases hA : w.wy * p.width + w.wx = i ∧ i < p.data.length
      · simp only [if_pos hA]
        show (p.data.set (w.wy * p.width + w.wx) w.color)[i]? = some w.color
        rw [List.getElem?_set, if_pos hA.1]
        have : w.wy * p.width + w.wx < p.data.length := by omega
        rw [if_pos this]
      · simp only [if_neg hA]
        show (p.data.set (w.wy * p.width + w.wx) w.color)[i]? = p.data[i]?
        rw [List.getElem?_set]
        by_cases he : w.wy * p.width + w.wx = i
        · have hnl : ¬ w.wy * p.width + w.wx < p.data.length := by
            intro hl
            exact hA ⟨he, by omega⟩
          rw [if_pos he, if_neg hnl]
          have : p.data[i]? = none := by
            rw [List.getElem?_eq_none_iff]
            omega
          rw [this]
        · rw [if_neg he]

theorem applyWrites_applyWrites (ws : List Write) (p : RgbPixmap) :
    applyWrites ws (applyWrites ws p) = applyWrites ws p := by
  have hW := applyWrites_width ws p
  have hH := applyWrites_height ws p
  have hL := applyWrites_length ws p
  have hdata : (applyWrites ws (applyWrites ws p)).data = (applyWrites ws p).data := by
    apply List.ext_getElem?
    intro n
    rw [applyWrites_getElem, hW, hL]
    cases h : lastHit p.width p.data.length ws n with
    | some c =>
      rw [applyWrites_getElem, h]
    | none => rfl
  have h2 := applyWrites_width ws (applyWrites ws p)
  have h3 := applyWrites_height ws (applyWrites ws p)
  cases hq : applyWrites ws (applyWrites ws p)
  cases hr : applyWrites ws p
  simp only [hq, hr] at hdata h2 h3 hW hH
  simp_all

theorem applyWrites_uniform (c : Rgb) :
    ∀ (ws : List Write), (∀ w ∈ ws, w.color = c) →
      ∀ (p : RgbPixmap), p.data = List.replicate p.data.length c →
        (applyWrites ws p).data = List.replicate p.data.length c := by
  intro ws
  induction ws with
  | nil => intro _ p hp; exact hp
  | cons w rest ih =>
    intro hcol p hp
    rw [applyWrites]
    have hc : w.color = c := hcol w (List.mem_cons_self ..)
    have hlen : (p.put_pixel w.wx w.wy w.color).data.length = p.data.length :=
      put_pixel_length ..
    have hset : (p.put_pixel w.wx w.wy w.color).data =
        List.replicate (p.put_pixel w.wx w.wy w.color).data.length c := by
      show p.data.set (w.wy * p.width + w.wx) w.color = _
      rw [hlen, hp, hc, List.length_replicate, List.set_replicate_self]
    have := ih (fun v hv => hcol v (List.mem_cons_of_mem _ hv)) _ hset
    rw [this, hlen]

theorem optMapM_isSome {α β : Type} {f : α → Option β} :
    ∀ {l : List α}, (∀ a ∈ l, (f a).isSome) → ∃ bs, optMapM f l = some bs := by
  intro l
  induction l with
  | nil => intro _; exact ⟨[], rfl⟩
  | cons a rest ih =>
    intro h
    obtain ⟨b, hb⟩ := Option.isSome_iff_exists.mp (h a (List.mem_cons_self ..))
    obtain ⟨bs, hbs⟩ := ih (fun x hx => h x (List.mem_cons_of_mem _ hx))
    exact ⟨b :: bs, by rw [optMapM, hb, hbs]⟩

theorem optMapM_mem {α β : Type} {f : α → Option β} :
    ∀ {l : List α} {bs : List β}, optMapM f l = some bs →
      ∀ b ∈ bs, ∃ a ∈ l, f a = some b := by
  intro l
  induction l with
  | nil =>
    intro bs h b hb
    rw [optMapM] at h
    cases h
    cases hb
  | cons a rest ih =>
    intro bs h b hb
    rw [optMapM] at h
    cases ha : f a with
    | none => rw [ha] at h; cases h
    | some b0 =>
      rw [ha] at h
      cases hr : optMapM f rest with
      | none => rw [hr] at h; cases h
      | some bs0 =>
        rw [hr] at h
        cases h
        rcases List.mem_cons.mp hb with h1 | h2
        · exact ⟨a, List.mem_cons_self .., by rw [ha, h1]⟩
        · obtain ⟨x, hx, hfx⟩ := ih hr b h2
          exact ⟨x, List.mem_cons_of_mem _ hx, hfx⟩

theorem textPass_isSome {shape : ShapeFn} {e : RenderEnv} :
    ∀ {cs : List (Nat × Nat)}, (∀ p ∈ cs, (draw_cell_text shape e p.1 p.2).isSome) →
      ∃ r, textPass shape e cs = some r := by
  intro cs
  induction cs with
  | nil => intro _; exact ⟨([], []), rfl⟩
  | cons p rest ih =>
    intro h
    obtain ⟨r, hr⟩ := Option.isSome_iff_exists.mp (h p (List.mem_cons_self ..))
    obtain ⟨r2, hr2⟩ := ih (fun x hx => h x (List.mem_cons_of_mem _ hx))
    exact ⟨(r.1 ++ r2.1, (if r.2 then [p] else []) ++ r2.2), by rw [textPass, hr, hr2]⟩

theorem textPass_writes_mem {shape : ShapeFn} {e : RenderEnv} :
    ∀ {cs : List (Nat × Nat)} {tws : List Write} {bs : List (Nat × Nat)},
      textPass shape e cs = some (tws, bs) →
      ∀ w ∈ tws, ∃ p ∈ cs, ∃ r, draw_cell_text shape e p.1 p.2 = some r ∧ w ∈ r.1 := by
  intro cs
  induction cs with
  | nil =>
    intro tws bs h w hw
    rw [textPass] at h
    cases h
    cases hw
  | cons p rest ih =>
    intro tws bs h w hw
    rw [textPass] at h
    cases hp : draw_cell_text shape e p.1 p.2 with
    | none => rw [hp] at h; cases h
    | some r =>
      rw [hp] at h
      cases hr : textPass shape e rest with
      | none => rw [hr] at h; cases h
      | some r2 =>
        rw [hr] at h
        cases h
        rcases List.mem_append.mp hw with h1 | h2
        · exact ⟨p, List.mem_cons_self .., r, hp, h1⟩
        · obtain ⟨q, hq, r3, hr3, hw3⟩ := ih hr w h2
          exact ⟨q, List.mem_cons_of_mem _ hq, r3, hr3, hw3⟩

theorem textPass_blinkers {shape : ShapeFn} {e : RenderEnv} :
    ∀ {cs : List (Nat × Nat)} {tws : List Write} {bs : List (Nat × Nat)},
      textPass shape e cs = some (tws, bs) →
      ∀ q, q ∈ bs ↔ (q ∈ cs ∧ ∃ ws2, draw_cell_text shape e q.1 q.2 = some (ws2, true)) := by
  intro cs
  induction cs with
  | nil =>
    intro tws bs h q
    rw [textPass] at h
    cases h
    simp
  | cons p rest ih =>
    intro tws bs h q
    rw [textPass] at h
    cases hp : draw_cell_text shape e p.1 p.2 with
    | none => rw [hp] at h; cases h
    | some r =>
      rw [hp] at h
      cases hr : textPass shape e rest with
      | none => rw [hr] at h; cases h
      | some r2 =>
        rw [hr] at h
        cases h
        have hrec := ih hr q
        constructor
        · intro hq
          rcases List.mem_append.mp hq with h1 | h2
          · by_cases hb : r.2
            · rw [if_pos hb] at h1
              have : q = p := by
                cases h1 with
                | head => rfl
                | tail _ h => cases h
              subst this
              exact ⟨List.mem_cons_self .., r.1, by rw [hp, ← hb]⟩
            · rw [if_neg hb] at h1
              cases h1
          · obtain ⟨hmem, hex⟩ := hrec.mp h2
            exact ⟨List.mem_cons_of_mem _ hmem, hex⟩
        · rintro ⟨hmem, ws2, hws2⟩
          rcases List.mem_cons.mp hmem with h1 | h2
          · subst h1
            rw [hp] at hws2
            cases hws2
            apply List.mem_append.mpr
            left
            rw [if_pos rfl]
            exact List.mem_cons_self ..
          · exact List.mem_append.mpr (Or.inr (hrec.mpr ⟨h2, ws2, hws2⟩))

theorem mem_coordList {w h : Nat} {p : Nat × Nat} :
    p ∈ coordList w h ↔ p.1 < w ∧ p.2 < h := by
  cases p with
  | mk x y =>
    simp only [coordList, List.mem_flatMap, List.mem_map, List.mem_range]
    constructor
    · rintro ⟨a, ha, b, hb, hab⟩
      cases hab
      exact ⟨ha, hb⟩
    · rintro ⟨hx, hy⟩
      exact ⟨x, hx, y, hy, rfl⟩

theorem mem_insertCoord {p q : Nat × Nat} {l : List (Nat × Nat)} :
    q ∈ insertCoord p l ↔ q ∈ l ∨ q = p := by
  rw [insertCoord]
  by_cases h : p ∈ l
  · rw [if_pos h]
    constructor
    · exact Or.inl
    · rintro (h1 | h1)
      · exact h1
      · rw [h1]; exact h
  · rw [if_neg h]
    simp [List.mem_append]

theorem mem_foldl_insertCoord :
    ∀ (l : List (Nat × Nat)) (acc : List (Nat × Nat)) (q : Nat × Nat),
      q ∈ l.foldl (fun a p => insertCoord p a) acc ↔ q ∈ acc ∨ q ∈ l := by
  intro l
  induction l with
  | nil => intro acc q; simp
  | cons p rest ih =>
    intro acc q
    rw [List.foldl_cons, ih]
    rw [mem_insertCoord]
    constructor
    · rintro ((h | h) | h)
      · exact Or.inl h
      · exact Or.inr (h ▸ List.mem_cons_self ..)
      · exact Or.inr (List.mem_cons_of_mem _ h)
    · rintro (h | h)
      · exact Or.inl (Or.inl h)
      · rcases List.mem_cons.mp h with h1 | h1
        · exact Or.inl (Or.inr h1)
        · exact Or.inr h1

theorem cellAt_isSome {b : TermBuffer} {x y : Nat} (hx : x < b.width) (hy : y < b.height) :
    b.cellAt x y = some (b.cells.getD (y * b.width + x) defaultCell) := by
  rw [TermBuffer.cellAt, if_pos ⟨hx, hy⟩]

theorem setCell_dims {b b2 : TermBuffer} {x y : Nat} {c : Cell}
    (h : b.setCell x y c = some b2) : b2.width = b.width ∧ b2.height = b.height := by
  rw [TermBuffer.setCell] at h
  by_cases hb : x < b.width ∧ y < b.height
  · rw [if_pos hb] at h
    cases h
    exact ⟨rfl, rfl⟩
  · rw [if_neg hb] at h
    cases h

theorem writeContent_dims :
    ∀ {l : List (Nat × Nat × Cell)} {b b2 : TermBuffer}, writeContent b l = some b2 →
      b2.width = b.width ∧ b2.height = b.height := by
  intro l
  induction l with
  | nil =>
    intro b b2 h
    rw [writeContent] at h
    cases h
    exact ⟨rfl, rfl⟩
  | cons t rest ih =>
    intro b b2 h
    obtain ⟨x, y, c⟩ := t
    rw [writeContent] at h
    cases hs : b.setCell x y c with
    | none => rw [hs] at h; cases h
    | some b1 =>
      rw [hs] at h
      obtain ⟨h1, h2⟩ := setCell_dims hs
      obtain ⟨h3, h4⟩ := ih h
      exact ⟨h3.trans h1, h4.trans h2⟩

theorem writeContent_isSome :
    ∀ {l : List (Nat × Nat × Cell)} {b : TermBuffer},
      (∀ t ∈ l, t.1 < b.width ∧ t.2.1 < b.height) →
      ∃ b2, writeContent b l = some b2 := by
  intro l
  induction l with
  | nil => intro b _; exact ⟨b, rfl⟩
  | cons t rest ih =>
    intro b h
    obtain ⟨x, y, c⟩ := t
    have hxy := h (x, y, c) (List.mem_cons_self ..)
    have hs : b.setCell x y c = some { b with cells := b.cells.set (y * b.width + x) c } := by
      rw [TermBuffer.setCell, if_pos hxy]
    obtain ⟨b2, hb2⟩ := @ih { b with cells := b.cells.set (y * b.width + x) c }
      (fun t ht => h t (List.mem_cons_of_mem _ ht))
    refine ⟨b2, ?_⟩
    rw [writeContent, hs]
    exact hb2

theorem writeContent_oob :
    ∀ {l : List (Nat × Nat × Cell)} {b : TermBuffer},
      (∃ t ∈ l, ¬(t.1 < b.width ∧ t.2.1 < b.height)) →
      writeContent b l = none := by
  intro l
  induction l with
  | nil =>
    rintro b ⟨t, ht, _⟩
    cases ht
  | cons t0 rest ih =>
    rintro b ⟨t, ht, hoob⟩
    obtain ⟨x, y, c⟩ := t0
    rcases List.mem_cons.mp ht with h1 | h1
    · subst h1
      rw [writeContent, TermBuffer.setCell, if_neg hoob]
    · rw [writeContent]
      cases hs : b.setCell x y c with
      | none => rfl
      | some b1 =>
        obtain ⟨hw, hh⟩ := setCell_dims hs
        exact ih ⟨t, h1, by rw [hw, hh]; exact hoob⟩

theorem glyphWrites_bounds {begin_x begin_y pw ph : Nat} {fg bg : Rgb} {g : PlacedGlyph} :
    ∀ w ∈ glyphWrites begin_x begin_y pw ph fg bg g, w.wx < pw ∧ w.wy < ph := by
  intro w hw
  rw [glyphWrites] at hw
  cases hgi : g.image with
  | none =>
    rw [hgi] at hw
    simp at hw
  | some img =>
    rw [hgi] at hw
    simp only [List.mem_flatMap, List.mem_filterMap, List.mem_range] at hw
    obtain ⟨oy, _, ox, _, hsome⟩ := hw
    by_cases h1 : (0 : Int) ≤ g.px + img.left + (ox : Int) ∧
        (0 : Int) ≤ g.line_y + g.py + (- img.top) + (oy : Int)
    · rw [if_pos h1] at hsome
      by_cases h2 : begin_x + (g.px + img.left + (ox : Int)).toNat < pw ∧
          begin_y + (g.line_y + g.py + (- img.top) + (oy : Int)).toNat < ph
      · rw [if_pos h2] at hsome
        cases hsome
        exact h2
      · rw [if_neg h2] at hsome
        cases hsome
    · rw [if_neg h1] at hsome
      cases hsome

theorem draw_cell_background_bounds {e : RenderEnv} {x y : Nat} {ws : List Write}
    (h : draw_cell_background e x y = some ws) :
    ∀ w ∈ ws, w.wx < e.pw ∧ w.wy < e.ph := by
  rw [draw_cell_background] at h
  by_cases h0 : e.pw ≤ x * e.pcw ∨ e.ph ≤ y * e.pch
  · rw [if_pos h0] at h
    cases h
    intro w hw
    cases hw
  · rw [if_neg h0] at h
    cases hc : e.buffer.cellAt x y with
    | none => rw [hc] at h; cases h
    | some cell =>
      rw [hc] at h
      cases h
      intro w hw
      simp only [List.mem_flatMap, List.mem_filterMap, List.mem_range] at hw
      obtain ⟨oy, _, ox, _, hsome⟩ := hw
      by_cases h2 : x * e.pcw + ox < e.pw ∧ y * e.pch + oy < e.ph
      · rw [if_pos h2] at hsome
        cases hsome
        exact h2
      · rw [if_neg h2] at hsome
        cases hsome

theorem draw_cell_text_bounds {shape : ShapeFn} {e : RenderEnv} {x y : Nat}
    {ws : List Write} {bl : Bool}
    (h : draw_cell_text shape e x y = some (ws, bl)) :
    ∀ w ∈ ws, w.wx < e.pw ∧ w.wy < e.ph := by
  rw [draw_cell_text] at h
  cases hc : e.buffer.cellAt x y with
  | none => rw [hc] at h; cases h
  | some cell =>
    rw [hc] at h
    cases h
    intro w hw
    simp only [List.mem_flatMap] at hw
    obtain ⟨g, _, hg⟩ := hw
    exact glyphWrites_bounds w hg

theorem draw_cell_text_isSome {shape : ShapeFn} {e : RenderEnv} {x y : Nat}
    (hx : x < e.buffer.width) (hy : y < e.buffer.height) :
    (draw_cell_text shape e x y).isSome := by
  rw [draw_cell_text, cellAt_isSome hx hy]
  rfl

theorem draw_cell_background_isSome {e : RenderEnv} {x y : Nat}
    (hx : x < e.buffer.width) (hy : y < e.buffer.height) :
    (draw_cell_background e x y).isSome := by
  rw [draw_cell_background]
  by_cases h0 : e.pw ≤ x * e.pcw ∨ e.ph ≤ y * e.pch
  · rw [if_pos h0]; rfl
  · rw [if_neg h0, cellAt_isSome hx hy]; rfl

/-- Whether a cell carries one of the two blink modifiers, as tested by
`draw_cell_text` when growing `always_redraw_list`. -/
def isBlinking (c : Cell) : Bool := c.modifier.slow_blink || c.modifier.rapid_blink

theorem draw_cell_text_blink {shape : ShapeFn} {e : RenderEnv} {x y : Nat} {cell : Cell}
    (hc : e.buffer.cellAt x y = some cell) :
    ∃ ws2, draw_cell_text shape e x y = some (ws2, isBlinking cell) := by
  rw [draw_cell_text, hc]
  exact ⟨_, rfl⟩

theorem paint_inv {shape : ShapeFn} {e : RenderEnv} {cells : List (Nat × Nat)}
    {ws : List Write} {bl : List (Nat × Nat)}
    (h : paint shape e cells = some (ws, bl)) :
    ∃ bgs tws, optMapM (fun p => draw_cell_background e p.1 p.2) cells = some bgs ∧
      textPass shape e cells = some (tws, bl) ∧ ws = bgs.flatten ++ tws := by
  rw [paint] at h
  cases h1 : optMapM (fun p => draw_cell_background e p.1 p.2) cells with
  | none => rw [h1] at h; cases h
  | some bgs =>
    rw [h1] at h
    cases h2 : textPass shape e cells with
    | none => rw [h2] at h; cases h
    | some r =>
      obtain ⟨tws, bl2⟩ := r
      rw [h2] at h
      cases h
      exact ⟨bgs, tws, rfl, rfl, rfl⟩

theorem paint_isSome {shape : ShapeFn} {e : RenderEnv} {cells : List (Nat × Nat)}
    (h : ∀ p ∈ cells, p.1 < e.buffer.width ∧ p.2 < e.buffer.height) :
    ∃ r, paint shape e cells = some r := by
  obtain ⟨bgs, h1⟩ := optMapM_isSome
    (f := fun p => draw_cell_background e p.1 p.2)
    (fun p hp => draw_cell_background_isSome (h p hp).1 (h p hp).2)
  obtain ⟨r, h2⟩ := @textPass_isSome shape e cells
    (fun p hp => draw_cell_text_isSome (h p hp).1 (h p hp).2)
  obtain ⟨tws, bl⟩ := r
  refine ⟨(bgs.flatten ++ tws, bl), ?_⟩
  rw [paint]
  simp only [h1, h2]

theorem paint_bounds {shape : ShapeFn} {e : RenderEnv} {cells : List (Nat × Nat)}
    {ws : List Write} {bl : List (Nat × Nat)}
    (h : paint shape e cells = some (ws, bl)) :
    ∀ w ∈ ws, w.wx < e.pw ∧ w.wy < e.ph := by
  obtain ⟨bgs, tws, h1, h2, rfl⟩ := paint_inv h
  intro w hw
  rcases List.mem_append.mp hw with hw | hw
  · obtain ⟨l, hl, hwl⟩ := List.mem_flatten.mp hw
    obtain ⟨p, _, hfp⟩ := optMapM_mem h1 l hl
    exact draw_cell_background_bounds hfp w hwl
  · obtain ⟨p, _, r, hr, hwr⟩ := textPass_writes_mem h2 w hw
    obtain ⟨rw1, rb⟩ := r
    exact draw_cell_text_bounds hr w hwr

theorem redraw_inv {shape : ShapeFn} {s s' : SoftBackend} {ws : List Write}
    (h : redraw shape s = some (s', ws)) :
    ∃ blinkers,
      paint shape s.env (coordList s.buffer.width s.buffer.height) = some (ws, blinkers) ∧
      s' = paintResult { s with always_redraw_list := [] } s.buffer ws blinkers := by
  rw [redraw] at h
  cases hp : paint shape s.env (coordList s.buffer.width s.buffer.height) with
  | none => rw [hp] at h; cases h
  | some r =>
    obtain ⟨ws0, bl⟩ := r
    rw [hp] at h
    cases h
    exact ⟨bl, rfl, rfl⟩

theorem redraw_eq {shape : ShapeFn} {s : SoftBackend} {r : List Write × List (Nat × Nat)}
    (hp : paint shape s.env (coordList s.buffer.width s.buffer.height) = some r) :
    redraw shape s =
      some (paintResult { s with always_redraw_list := [] } s.buffer r.1 r.2, r.1) := by
  obtain ⟨ws, bl⟩ := r
  rw [redraw, hp]

theorem draw_inv {shape : ShapeFn} {s s' : SoftBackend} {content : List (Nat × Nat × Cell)}
    {ws : List Write}
    (h : draw shape s content = some (s', ws)) :
    ∃ buf blinkers,
      writeContent (update_blinking s).buffer content = some buf ∧
      paint shape { update_blinking s with buffer := buf }.env
        (content.map (fun t => (t.1, t.2.1)) ++ (update_blinking s).always_redraw_list)
        = some (ws, blinkers) ∧
      s' = paintResult (update_blinking s) buf ws blinkers := by
  rw [draw] at h
  cases hw : writeContent (update_blinking s).buffer content with
  | none => rw [hw] at h; cases h
  | some buf =>
    simp only [hw] at h
    cases hp : paint shape { update_blinking s with buffer := buf }.env
        (content.map (fun t => (t.1, t.2.1)) ++ (update_blinking s).always_redraw_list) with
    | none => rw [hp] at h; cases h
    | some r =>
      obtain ⟨ws0, bl⟩ := r
      rw [hp] at h
      cases h
      exact ⟨buf, bl, rfl, hp, rfl⟩

theorem draw_eq {shape : ShapeFn} {s : SoftBackend} {content : List (Nat × Nat × Cell)}
    {buf : TermBuffer} {r : List Write × List (Nat × Nat)}
    (hw : writeContent (update_blinking s).buffer content = some buf)
    (hp : paint shape { update_blinking s with buffer := buf }.env
      (content.map (fun t => (t.1, t.2.1)) ++ (update_blinking s).always_redraw_list)
      = some r) :
    draw shape s content = some (paintResult (update_blinking s) buf r.1 r.2, r.1) := by
  obtain ⟨ws, bl⟩ := r
  rw [draw]
  simp only [hw, hp]

theorem iterate_update_blinking (n : Nat) :
    ∀ s : SoftBackend, s.blink_counter < 200 →
      (update_blinking^[n] s).blink_counter = (s.blink_counter + n) % 200 := by
  induction n with
  | zero =>
    intro s h
    simp [Nat.mod_eq_of_lt h]
  | succ n ih =>
    intro s h
    rw [Function.iterate_succ_apply]
    have h1 : (update_blinking s).blink_counter = (s.blink_counter + 1) % 200 := rfl
    have h2 : (update_blinking s).blink_counter < 200 := by
      rw [h1]
      exact Nat.mod_lt _ (by omega)
    rw [ih _ h2, h1]
    omega

/-- A concrete 2-by-1 backend used as the sample input of the witness
theorems: 2-by-1 character cells at scale 1, hence a 4-by-1 pixmap. -/
def sampleState : SoftBackend :=
  { buffer := TermBuffer.empty 2 1
    cursor := false
    pos := (0, 0)
    char_width := 2
    char_height := 1
    scale_num := 1
    scale_den := 1
    blink_counter := 0
    blinking_fast := false
    blinking_slow := false
    rgb_pixmap := RgbPixmap.new 4 1
    always_redraw_list := [] }

/-- A shaping oracle producing no glyphs, used in witnesses. -/
def sampleShape : ShapeFn := fun _ _ _ => []

/-- A shaping oracle producing one one-pixel glyph at the cell origin with a
given alpha, used in witnesses that need a visible glyph. -/
def sampleShapeDot (a : Fin 256) : ShapeFn :=
  fun _ _ _ => [⟨0, 0, 0, some ⟨0, 0, 1, 1, [a]⟩⟩]

/-- C10: `clear` mutates only the grid cells and the pixel contents: the blink
counter, both blink predicates, the redraw list (which `clear` does not
empty), the cursor state, the character metrics, the scale factor, and the
pixmap and grid dimensions are all left unchanged. -/
theorem c10_clear_frame (s : SoftBackend) :
    (clear s).blink_counter = s.blink_counter ∧
    (clear s).blinking_fast = s.blinking_fast ∧
    (clear s).blinking_slow = s.blinking_slow ∧
    (clear s).always_redraw_list = s.always_redraw_list ∧
    (clear s).cursor = s.cursor ∧
    (clear s).pos = s.pos ∧
    (clear s).char_width = s.char_width ∧
    (clear s).char_height = s.char_height ∧
    (clear s).scale_num = s.scale_num ∧
    (clear s).scale_den = s.scale_den ∧
    (clear s).rgb_pixmap.width = s.rgb_pixmap.width ∧
    (clear s).rgb_pixmap.height = s.rgb_pixmap.height ∧
    (clear s).buffer.width = s.buffer.width ∧
    (clear s).buffer.height = s.buffer.height :=
  ⟨rfl, rfl, rfl, rfl, rfl, rfl, rfl, rfl, rfl, rfl, rfl, rfl, rfl, rfl⟩

/-- C2: every successful `draw` advances the blink counter by exactly one
modulo 200 and recomputes the two predicates from the new counter (fast iff
counter mod 100 lies in [0,5], slow iff counter lies in [20,25]); `clear`, the
cursor operations, `flush`, `redraw`, `resize` and `set_font_size` leave the
counter untouched; and 200 ticks from any counter value below 200 return the
counter to its prior value. -/
theorem c2_blink_clock :
    (∀ (shape : ShapeFn) (s s' : SoftBackend) (content : List (Nat × Nat × Cell))
        (ws : List Write), draw shape s content = some (s', ws) →
      s'.blink_counter = (s.blink_counter + 1) % 200 ∧
      (s'.blinking_fast = true ↔ s'.blink_counter % 100 ≤ 5) ∧
      (s'.blinking_slow = true ↔ 20 ≤ s'.blink_counter ∧ s'.blink_counter ≤ 25)) ∧
    (∀ s : SoftBackend,
      (clear s).blink_counter = s.blink_counter ∧
      (hide_cursor s).blink_counter = s.blink_counter ∧
      (show_cursor s).blink_counter = s.blink_counter ∧
      (∀ p, (set_cursor_position s p).blink_counter = s.blink_counter) ∧
      (flush s).blink_counter = s.blink_counter) ∧
    (∀ (shape : ShapeFn) (s s' : SoftBackend) (ws : List Write),
      redraw shape s = some (s', ws) →
      s'.blink_counter = s.blink_counter ∧ s'.blinking_fast = s.blinking_fast ∧
      s'.blinking_slow = s.blinking_slow) ∧
    (∀ (shape : ShapeFn) (s s' : SoftBackend) (w h : Nat) (ws : List Write),
      resize shape s w h = some (s', ws) → s'.blink_counter = s.blink_counter) ∧
    (∀ (shape : ShapeFn) (mw mh : Nat) (s s' : SoftBackend) (ws : List Write),
      set_font_size shape mw mh s = some (s', ws) → s'.blink_counter = s.blink_counter) ∧
    (∀ s : SoftBackend, s.blink_counter < 200 →
      (update_blinking^[200] s).blink_counter = s.blink_counter) := by
  refine ⟨?_, ?_, ?_, ?_, ?_, ?_⟩
  · intro shape s s' content ws h
    obtain ⟨buf, bl, hw, hp, rfl⟩ := draw_inv h
    refine ⟨rfl, ?_, ?_⟩
    · show decide ((s.blink_counter + 1) % 200 % 100 ≤ 5) = true ↔
        (s.blink_counter + 1) % 200 % 100 ≤ 5
      exact decide_eq_true_iff
    · show decide (20 ≤ (s.blink_counter + 1) % 200 ∧ (s.blink_counter + 1) % 200 ≤ 25) = true ↔ _
      exact decide_eq_true_iff
  · intro s
    exact ⟨rfl, rfl, rfl, fun p => rfl, rfl⟩
  · intro shape s s' ws h
    obtain ⟨bl, hp, rfl⟩ := redraw_inv h
    exact ⟨rfl, rfl, rfl⟩
  · intro shape s s' w h2 ws h
    rw [resize] at h
    obtain ⟨bl, hp, rfl⟩ := redraw_inv h
    exact rfl
  · intro shape mw mh s s' ws h
    rw [set_font_size] at h
    obtain ⟨bl, hp, rfl⟩ := redraw_inv h
    exact rfl
  · intro s h
    rw [iterate_update_blinking 200 s h]
    omega

/-- Witness for C2 at the sample backend: the draw hypothesis and the
counter-range hypothesis are discharged concretely. -/
theorem c2_blink_clock_witness :
    sampleState.blink_counter < 200 ∧
    (update_blinking^[200] sampleState).blink_counter = sampleState.blink_counter ∧
    ∃ s' ws, draw sampleShape sampleState [] = some (s', ws) ∧
      s'.blink_counter = (sampleState.blink_counter + 1) % 200 := by
  have hper := c2_blink_clock.2.2.2.2.2 sampleState (by decide)
  have hdraw : draw sampleShape sampleState [] = some (update_blinking sampleState, []) := by
    decide
  have hadv := (c2_blink_clock.1 sampleShape sampleState (update_blinking sampleState)
    [] [] hdraw).1
  exact ⟨by decide, hper, update_blinking sampleState, [], hdraw, hadv⟩

/-- A cell carrying both the crossed-out and the underlined modifiers, the
input refuting the one-overlay-per-decoration reading of the claim. -/
def bothDecoCell : Cell :=
  { symbol := ['A'], fg := RatColor.reset, bg := RatColor.reset,
    modifier := { noMods with crossed_out := true, underlined := true } }

/-- C5 counterexample: with both decorations set, the shaped text is not the
symbol with U+0336 appended after every character, and each symbol character
receives two copies of U+0332, not one. -/
theorem c5_counterexample :
    shapedText bothDecoCell ≠ add_strikeout bothDecoCell.symbol ∧
    (shapedText bothDecoCell).count '̲' = 2 ∧
    shapedText bothDecoCell = ['A', '̲', '̶', '̲'] := by
  decide

/-- C5 amended: strikeout is applied first, then underline over the already
struck text; with exactly one decoration set the claimed per-character overlay
holds (one U+0336 per character for crossed-out, one U+0332 per character for
underlined), but with both set every original character expands to the
character followed by U+0332, U+0336, U+0332 — one strike overlay and two
underline overlays per character of the symbol. -/
theorem c5_decoration_synthesis (c : Cell) :
    shapedText c = c.symbol.flatMap (fun ch =>
      if c.modifier.crossed_out && c.modifier.underlined then
        [ch, '̲', '̶', '̲']
      else if c.modifier.crossed_out then [ch, '̶']
      else if c.modifier.underlined then [ch, '̲']
      else [ch]) := by
  rw [shapedText]
  cases hco : c.modifier.crossed_out with
  | false =>
    cases hu : c.modifier.underlined with
    | false => simp [hco, hu]
    | true => simp [hco, hu, add_underline]
  | true =>
    cases hu : c.modifier.underlined with
    | false => simp [hco, hu, add_strikeout]
    | true =>
      simp only [hco, hu, if_pos, Bool.and_self, if_true, Bool.true_and]
      rw [add_underline, add_strikeout, List.flatMap_assoc]
      rfl

/-- C8: after any `resize(w, h)` the pixmap dimensions are exactly the current
physical cell dimensions times the new grid dimensions, the operation always
returns (no failure), and a degenerate resize with zero width or height
yields an empty but valid pixmap. -/
theorem c8_resize (shape : ShapeFn) (s : SoftBackend) (w h : Nat) :
    ∃ s' ws, resize shape s w h = some (s', ws) ∧
      s'.rgb_pixmap.width = physCellW s * w ∧
      s'.rgb_pixmap.height = physCellH s * h ∧
      (w = 0 ∨ h = 0 → s'.rgb_pixmap.data = []) := by
  rw [resize]
  obtain ⟨r, hp⟩ := @paint_isSome shape
    (SoftBackend.env
      { { s with buffer := s.buffer.resizeTo w h } with
          rgb_pixmap := RgbPixmap.new
            (physCellW { s with buffer := s.buffer.resizeTo w h } * w)
            (physCellH { s with buffer := s.buffer.resizeTo w h } * h) })
    (coordList w h)
    (fun p hp => by
      have := mem_coordList.mp hp
      exact this)
  have hred := redraw_eq hp
  refine ⟨_, _, hred, ?_, ?_, ?_⟩
  · show (applyWrites r.1 (RgbPixmap.new (physCellW s * w) (physCellH s * h))).width = _
    rw [applyWrites_width]
    rfl
  · show (applyWrites r.1 (RgbPixmap.new (physCellW s * w) (physCellH s * h))).height = _
    rw [applyWrites_height]
    rfl
  · intro hz
    have hlen : (applyWrites r.1
        (RgbPixmap.new (physCellW s * w) (physCellH s * h))).data.length = 0 := by
      rw [applyWrites_length]
      show (List.replicate (physCellW s * w * (physCellH s * h)) (⟨0, 0, 0⟩ : Rgb)).length = 0
      rw [List.length_replicate]
      rcases hz with hz | hz <;> rw [hz] <;> ring
    exact List.eq_nil_of_length_eq_zero hlen

/-- Witness for C8 at a degenerate resize of the sample backend. -/
theorem c8_resize_witness :
    ∃ s' ws, resize sampleShape sampleState 0 1 = some (s', ws) ∧
      s'.rgb_pixmap.width = physCellW sampleState * 0 ∧ s'.rgb_pixmap.data = [] := by
  obtain ⟨s', ws, h1, h2, h3, h4⟩ := c8_resize sampleShape sampleState 0 1
  exact ⟨s', ws, h1, h2, h4 (Or.inl rfl)⟩

/-- C1 counterexample: a `draw` whose iterator contains the out-of-bounds
coordinate (5, 0) on a 2-by-1 grid panics (the grid write through the
panicking index operator), instead of being silently skipped. -/
theorem c1_counterexample :
    draw sampleShape sampleState [(5, 0, defaultCell)] = none := by
  decide

/-- C1 amended: every pixel write of a successful `draw` stays inside the
pixmap's allocated extent, and the background phase defensively skips a cell
whose rectangle origin lies outside the pixmap; but a `draw` whose iterator
contains a coordinate outside the grid bounds panics at the grid write rather
than skipping it, while a `draw` whose iterator stays inside the grid (with a
well-formed redraw list) always succeeds. -/
theorem c1_draw_bounds :
    (∀ (shape : ShapeFn) (s s' : SoftBackend) (content : List (Nat × Nat × Cell))
        (ws : List Write), draw shape s content = some (s', ws) →
      ∀ w ∈ ws, w.wx < s.rgb_pixmap.width ∧ w.wy < s.rgb_pixmap.height) ∧
    (∀ (shape : ShapeFn) (s : SoftBackend) (content : List (Nat × Nat × Cell)),
      (∃ t ∈ content, ¬(t.1 < s.buffer.width ∧ t.2.1 < s.buffer.height)) →
      draw shape s content = none) ∧
    (∀ (e : RenderEnv) (x y : Nat),
      e.pw ≤ x * e.pcw ∨ e.ph ≤ y * e.pch → draw_cell_background e x y = some []) ∧
    (∀ (shape : ShapeFn) (s : SoftBackend) (content : List (Nat × Nat × Cell)),
      (∀ t ∈ content, t.1 < s.buffer.width ∧ t.2.1 < s.buffer.height) →
      (∀ p ∈ s.always_redraw_list, p.1 < s.buffer.width ∧ p.2 < s.buffer.height) →
      ∃ s' ws, draw shape s content = some (s', ws)) := by
  refine ⟨?_, ?_, ?_, ?_⟩
  · intro shape s s' content ws h
    obtain ⟨buf, bl, hwc, hp, rfl⟩ := draw_inv h
    have hb := paint_bounds hp
    intro w hw
    exact hb w hw
  · intro shape s content hoob
    have hwc : writeContent (update_blinking s).buffer content = none :=
      writeContent_oob hoob
    rw [draw, hwc]
  · intro e x y h
    rw [draw_cell_background, if_pos h]
  · intro shape s content hin hlist
    obtain ⟨buf, hbuf⟩ := writeContent_isSome (b := (update_blinking s).buffer) hin
    obtain ⟨hbw, hbh⟩ := writeContent_dims hbuf
    obtain ⟨r, hp⟩ := @paint_isSome shape
      (SoftBackend.env { update_blinking s with buffer := buf })
      (content.map (fun t => (t.1, t.2.1)) ++ (update_blinking s).always_redraw_list)
      (fun p hpmem => by
        show p.1 < buf.width ∧ p.2 < buf.height
        rw [hbw, hbh]
        rcases List.mem_append.mp hpmem with hm | hm
        · obtain ⟨t, ht, rfl⟩ := List.mem_map.mp hm
          exact hin t ht
        · exact hlist p hm)
    exact ⟨_, _, draw_eq hbuf hp⟩

/-- Witness for C1's amended theorem: an in-bounds draw on the sample backend
succeeds, and the out-of-bounds draw panics. -/
theorem c1_draw_bounds_witness :
    (∃ s' ws, draw sampleShape sampleState [(1, 0, defaultCell)] = some (s', ws)) ∧
    draw sampleShape sampleState [(5, 0, defaultCell)] = none := by
  refine ⟨?_, ?_⟩
  · exact c1_draw_bounds.2.2.2 sampleShape sampleState [(1, 0, defaultCell)]
      (by decide) (by decide)
  · exact c1_draw_bounds.2.1 sampleShape sampleState [(5, 0, defaultCell)]
      ⟨(5, 0, defaultCell), by decide, by decide⟩


theorem glyphWrites_color {begin_x begin_y pw ph : Nat} {fg bg : Rgb} {g : PlacedGlyph} :
    ∀ w ∈ glyphWrites begin_x begin_y pw ph fg bg g,
      ∃ a, a ≤ 255 ∧
        w.color = blend_rgba ⟨fg.r, fg.g, fg.b, a⟩ ⟨bg.r, bg.g, bg.b, 255⟩ := by
  intro w hw
  rw [glyphWrites] at hw
  cases hgi : g.image with
  | none =>
    rw [hgi] at hw
    simp at hw
  | some img =>
    rw [hgi] at hw
    simp only [List.mem_flatMap, List.mem_filterMap, List.mem_range] at hw
    obtain ⟨oy, _, ox, _, hsome⟩ := hw
    by_cases h1 : (0 : Int) ≤ g.px + img.left + (ox : Int) ∧
        (0 : Int) ≤ g.line_y + g.py + (- img.top) + (oy : Int)
    · rw [if_pos h1] at hsome
      by_cases h2 : begin_x + (g.px + img.left + (ox : Int)).toNat < pw ∧
          begin_y + (g.line_y + g.py + (- img.top) + (oy : Int)).toNat < ph
      · rw [if_pos h2] at hsome
        cases hsome
        refine ⟨(img.idata.getD (oy * img.iwidth + ox) 0).val, ?_, rfl⟩
        exact Nat.le_of_lt_succ (img.idata.getD (oy * img.iwidth + ox) 0).isLt
      · rw [if_neg h2] at hsome
        cases hsome
    · rw [if_neg h1] at hsome
      cases hsome

theorem blend_self (c : Rgb) (a : Nat) (ha : a ≤ 255) :
    blend_rgba ⟨c.r, c.g, c.b, a⟩ ⟨c.r, c.g, c.b, 255⟩ = c := by
  have h : ∀ x : Nat, (x * a + x * (255 - a)) / 255 = x := by
    intro x
    have hx : x * a + x * (255 - a) = x * 255 := by
      rw [← Nat.mul_add]
      congr 1
      omega
    rw [hx, Nat.mul_div_cancel _ (by omega : 0 < 255)]
  obtain ⟨r, g, b⟩ := c
  rw [blend_rgba]
  simp only [h]

/-- C3: whenever the fast blink predicate holds, a drawn cell carrying the
rapid-blink modifier has its foreground replaced by its resolved background
before compositing, so every pixel composited for its glyphs equals the
cell's resolved background color — the glyph disappears for that tick. -/
theorem c3_rapid_blink (shape : ShapeFn) (e : RenderEnv) (x y : Nat) (cell : Cell)
    (ws : List Write) (bl : Bool)
    (hc : e.buffer.cellAt x y = some cell)
    (hr : cell.modifier.rapid_blink = true)
    (hf : e.blinking_fast = true)
    (h : draw_cell_text shape e x y = some (ws, bl)) :
    ∀ w ∈ ws, w.color = textBgColor cell := by
  rw [draw_cell_text, hc] at h
  cases h
  intro w hw
  rw [hr, hf] at hw
  simp only [Bool.and_self, if_true] at hw
  obtain ⟨g, _, hwg⟩ := List.mem_flatMap.mp hw
  obtain ⟨a, ha, hcol⟩ := glyphWrites_color w hwg
  rw [hcol]
  exact blend_self _ a ha

/-- A rapid-blink cell with distinct foreground and background colors. -/
def blinkCell : Cell :=
  { symbol := ['A'], fg := RatColor.rgbc 200 10 10, bg := RatColor.rgbc 1 2 3,
    modifier := { noMods with rapid_blink := true } }

/-- A 1-by-1 render environment around `blinkCell` with the fast blink
predicate raised. -/
def blinkEnv : RenderEnv :=
  { buffer := ⟨1, 1, [blinkCell]⟩, pcw := 2, pch := 1, pw := 2, ph := 1,
    blinking_fast := true, blinking_slow := false }

/-- Witness for C3: one actual composited pixel, equal to the background. -/
theorem c3_rapid_blink_witness :
    ∃ ws bl, draw_cell_text (sampleShapeDot 100) blinkEnv 0 0 = some (ws, bl) ∧
      ws ≠ [] ∧ ∀ w ∈ ws, w.color = textBgColor blinkCell := by
  have hd : draw_cell_text (sampleShapeDot 100) blinkEnv 0 0 =
      some ([⟨0, 0, ⟨1, 2, 3⟩⟩], true) := by decide
  exact ⟨_, _, hd, by decide,
    c3_rapid_blink (sampleShapeDot 100) blinkEnv 0 0 blinkCell _ _
      (by decide) (by decide) (by decide) hd⟩

/-- C4: in both `draw` and `redraw` the whole repaint set is painted in two
strict phases — every background-rectangle trace precedes every glyph trace
in the emitted `put_pixel` sequence — and in `draw` the repaint set is the
content coordinates followed by the snapshot of the redraw list taken before
painting. -/
theorem c4_two_phase :
    (∀ (shape : ShapeFn) (s s' : SoftBackend) (content : List (Nat × Nat × Cell))
        (ws : List Write), draw shape s content = some (s', ws) →
      ∃ buf bgs tws blinkers,
        writeContent (update_blinking s).buffer content = some buf ∧
        optMapM
          (fun p => draw_cell_background { update_blinking s with buffer := buf }.env p.1 p.2)
          (content.map (fun t => (t.1, t.2.1)) ++ s.always_redraw_list) = some bgs ∧
        textPass shape { update_blinking s with buffer := buf }.env
          (content.map (fun t => (t.1, t.2.1)) ++ s.always_redraw_list) = some (tws, blinkers) ∧
        ws = bgs.flatten ++ tws) ∧
    (∀ (shape : ShapeFn) (s s' : SoftBackend) (ws : List Write),
      redraw shape s = some (s', ws) →
      ∃ bgs tws blinkers,
        optMapM (fun p => draw_cell_background s.env p.1 p.2)
          (coordList s.buffer.width s.buffer.height) = some bgs ∧
        textPass shape s.env (coordList s.buffer.width s.buffer.height)
          = some (tws, blinkers) ∧
        ws = bgs.flatten ++ tws) := by
  constructor
  · intro shape s s' content ws h
    obtain ⟨buf, bl, hwc, hpaint, rfl⟩ := draw_inv h
    obtain ⟨bgs, tws, h1, h2, h3⟩ := paint_inv hpaint
    exact ⟨buf, bgs, tws, bl, hwc, h1, h2, h3⟩
  · intro shape s s' ws h
    obtain ⟨bl, hpaint, rfl⟩ := redraw_inv h
    obtain ⟨bgs, tws, h1, h2, h3⟩ := paint_inv hpaint
    exact ⟨bgs, tws, bl, h1, h2, h3⟩

/-- Witness for C4: a concrete one-cell draw on the sample backend. -/
theorem c4_two_phase_witness :
    ∃ (s' : SoftBackend) (ws : List Write) (buf : TermBuffer) (bgs : List (List Write))
      (tws : List Write) (blinkers : List (Nat × Nat)),
      draw sampleShape sampleState [(1, 0, defaultCell)] = some (s', ws) ∧
      writeContent (update_blinking sampleState).buffer [(1, 0, defaultCell)] = some buf ∧
      optMapM
        (fun p => draw_cell_background
          { update_blinking sampleState with buffer := buf }.env p.1 p.2)
        ([(1, 0, defaultCell)].map (fun t => (t.1, t.2.1)) ++ sampleState.always_redraw_list)
        = some bgs ∧
      textPass sampleShape { update_blinking sampleState with buffer := buf }.env
        ([(1, 0, defaultCell)].map (fun t => (t.1, t.2.1)) ++ sampleState.always_redraw_list)
        = some (tws, blinkers) ∧
      ws = bgs.flatten ++ tws := by
  obtain ⟨r, hd⟩ := Option.isSome_iff_exists.mp
    (show (draw sampleShape sampleState [(1, 0, defaultCell)]).isSome = true by decide)
  obtain ⟨s1, ws1⟩ := r
  obtain ⟨buf, bgs, tws, bls, h1, h2, h3, h4⟩ :=
    c4_two_phase.1 sampleShape sampleState s1 [(1, 0, defaultCell)] ws1 hd
  exact ⟨s1, ws1, buf, bgs, tws, bls, hd, h1, h2, h3, h4⟩


/-- A 1-by-1 backend whose single cell is the rapid-blink `blinkCell`. -/
def blinkState : SoftBackend :=
  { buffer := ⟨1, 1, [blinkCell]⟩
    cursor := false
    pos := (0, 0)
    char_width := 2
    char_height := 1
    scale_num := 1
    scale_den := 1
    blink_counter := 0
    blinking_fast := false
    blinking_slow := false
    rgb_pixmap := RgbPixmap.new 2 1
    always_redraw_list := [] }

/-- C9: after a `redraw`, the redraw list holds exactly the in-grid
coordinates whose cell carries a blink modifier (it is cleared at the start
of `redraw` and rebuilt during the pass); a successful `draw` never removes
entries and inserts every painted cell whose (updated) grid cell carries a
blink modifier; and `clear`, the cursor operations and `flush` leave the list
untouched. -/
theorem c9_redraw_list :
    (∀ (shape : ShapeFn) (s s' : SoftBackend) (ws : List Write),
      redraw shape s = some (s', ws) →
      ∀ q : Nat × Nat, q ∈ s'.always_redraw_list ↔
        (q.1 < s.buffer.width ∧ q.2 < s.buffer.height ∧
         ∃ cell, s.buffer.cellAt q.1 q.2 = some cell ∧ isBlinking cell = true)) ∧
    (∀ (shape : ShapeFn) (s s' : SoftBackend) (content : List (Nat × Nat × Cell))
        (ws : List Write), draw shape s content = some (s', ws) →
      (∀ q ∈ s.always_redraw_list, q ∈ s'.always_redraw_list) ∧
      (∀ q ∈ content.map (fun t => (t.1, t.2.1)) ++ s.always_redraw_list,
        ∀ cell, s'.buffer.cellAt q.1 q.2 = some cell → isBlinking cell = true →
          q ∈ s'.always_redraw_list)) ∧
    (∀ s : SoftBackend,
      (clear s).always_redraw_list = s.always_redraw_list ∧
      (hide_cursor s).always_redraw_list = s.always_redraw_list ∧
      (show_cursor s).always_redraw_list = s.always_redraw_list ∧
      (∀ p, (set_cursor_position s p).always_redraw_list = s.always_redraw_list) ∧
      (flush s).always_redraw_list = s.always_redraw_list) := by
  refine ⟨?_, ?_, ?_⟩
  · intro shape s s' ws h q
    obtain ⟨bl, hp, rfl⟩ := redraw_inv h
    obtain ⟨bgs, tws, h1, h2, h3⟩ := paint_inv hp
    have hq := textPass_blinkers h2 q
    show q ∈ bl.foldl (fun acc p => insertCoord p acc) [] ↔ _
    rw [mem_foldl_insertCoord]
    constructor
    · rintro (hin | hin)
      · cases hin
      · obtain ⟨hmem, ws2, hws2⟩ := hq.mp hin
        have hb := mem_coordList.mp hmem
        refine ⟨hb.1, hb.2, ?_⟩
        have hcell := cellAt_isSome hb.1 hb.2
        obtain ⟨ws0, hws0⟩ := @draw_cell_text_blink shape (SoftBackend.env s) q.1 q.2 _ hcell
        rw [hws0] at hws2
        have h6 := Option.some.inj hws2
        have h7 := congrArg Prod.snd h6
        exact ⟨_, hcell, h7⟩
    · rintro ⟨hx, hy, cell, hcell, hbl⟩
      refine Or.inr (hq.mpr ⟨mem_coordList.mpr ⟨hx, hy⟩, ?_⟩)
      obtain ⟨ws0, hws0⟩ := @draw_cell_text_blink shape (SoftBackend.env s) q.1 q.2 cell hcell
      rw [hbl] at hws0
      exact ⟨ws0, hws0⟩
  · intro shape s s' content ws h
    obtain ⟨buf, bl, hwc, hp, rfl⟩ := draw_inv h
    obtain ⟨bgs, tws, h1, h2, h3⟩ := paint_inv hp
    constructor
    · intro q hq
      show q ∈ bl.foldl (fun acc p => insertCoord p acc) s.always_redraw_list
      exact (mem_foldl_insertCoord bl s.always_redraw_list q).mpr (Or.inl hq)
    · intro q hqmem cell hcell hbl
      show q ∈ bl.foldl (fun acc p => insertCoord p acc) s.always_redraw_list
      apply (mem_foldl_insertCoord bl s.always_redraw_list q).mpr
      refine Or.inr ((textPass_blinkers h2 q).mpr ⟨hqmem, ?_⟩)
      obtain ⟨ws0, hws0⟩ :=
        @draw_cell_text_blink shape
          (SoftBackend.env { update_blinking s with buffer := buf }) q.1 q.2 cell hcell
      rw [hbl] at hws0
      exact ⟨ws0, hws0⟩
  · intro s
    exact ⟨rfl, rfl, rfl, fun p => rfl, rfl⟩

/-- Witness for C9 at a concrete blinking backend: the rebuilt redraw list
after a full redraw contains the blinking cell's coordinate. -/
theorem c9_redraw_list_witness :
    ∃ s' ws, redraw sampleShape blinkState = some (s', ws) ∧
      ((0, 0) ∈ s'.always_redraw_list ↔
        (0 < blinkState.buffer.width ∧ 0 < blinkState.buffer.height ∧
         ∃ cell, blinkState.buffer.cellAt 0 0 = some cell ∧ isBlinking cell = true)) ∧
      (0, 0) ∈ s'.always_redraw_list := by
  obtain ⟨r, hd⟩ := Option.isSome_iff_exists.mp
    (show (redraw sampleShape blinkState).isSome = true by decide)
  obtain ⟨s1, ws1⟩ := r
  have hiff := c9_redraw_list.1 sampleShape blinkState s1 ws1 hd (0, 0)
  refine ⟨s1, ws1, hd, hiff, hiff.mpr ⟨by decide, by decide, blinkCell, by decide, by decide⟩⟩


theorem draw_cell_background_colors {e : RenderEnv} {x y : Nat} {ws : List Write} {cell : Cell}
    (hc : e.buffer.cellAt x y = some cell)
    (h : draw_cell_background e x y = some ws) :
    ∀ w ∈ ws, w.color =
      (if cell.modifier.dim then
        dim_rgb (if cell.modifier.reversed then rat_to_rgb cell.fg true
                 else rat_to_rgb cell.bg false)
       else (if cell.modifier.reversed then rat_to_rgb cell.fg true
             else rat_to_rgb cell.bg false)) := by
  rw [draw_cell_background] at h
  by_cases h0 : e.pw ≤ x * e.pcw ∨ e.ph ≤ y * e.pch
  · rw [if_pos h0] at h
    cases h
    intro w hw
    cases hw
  · rw [if_neg h0, hc] at h
    cases h
    intro w hw
    simp only [List.mem_flatMap, List.mem_filterMap, List.mem_range] at hw
    obtain ⟨oy, _, ox, _, hsome⟩ := hw
    by_cases h2 : x * e.pcw + ox < e.pw ∧ y * e.pch + oy < e.ph
    · rw [if_pos h2] at hsome
      cases hsome
      rfl
    · rw [if_neg h2] at hsome
      cases hsome

theorem getD_replicate_default (n i : Nat) :
    (List.replicate n defaultCell).getD i defaultCell = defaultCell := by
  rw [List.getD_eq_getElem?_getD, List.getElem?_replicate]
  by_cases h : i < n
  · rw [if_pos h]
    rfl
  · rw [if_neg h]
    rfl

theorem clear_cellAt (s : SoftBackend) {x y : Nat}
    (hx : x < s.buffer.width) (hy : y < s.buffer.height) :
    (clear s).buffer.cellAt x y = some defaultCell := by
  rw [TermBuffer.cellAt]
  rw [if_pos (⟨hx, hy⟩ : x < (clear s).buffer.width ∧ y < (clear s).buffer.height)]
  exact congrArg some (getD_replicate_default _ _)

/-- C7: `clear` resets every grid cell to the default cell and fills the
whole pixmap uniformly with the resolved default background color, and a
`redraw` immediately after `clear` leaves the pixmap still uniformly that
color, provided the shaping collaborator yields no glyphs for the default
cell's blank symbol (the spec: a blank symbol shapes to zero glyphs). -/
theorem c7_clear (shape : ShapeFn) (s : SoftBackend)
    (hblank : shape (shapedText defaultCell) defaultCell.modifier.bold
      defaultCell.modifier.italic = []) :
    ((clear s).rgb_pixmap.data =
      List.replicate ((clear s).rgb_pixmap.width * (clear s).rgb_pixmap.height)
        (rat_to_rgb defaultCell.bg false)) ∧
    (∀ x y, x < s.buffer.width → y < s.buffer.height →
      (clear s).buffer.cellAt x y = some defaultCell) ∧
    (∀ s' ws, redraw shape (clear s) = some (s', ws) →
      s'.rgb_pixmap.data =
        List.replicate (s'.rgb_pixmap.width * s'.rgb_pixmap.height)
          (rat_to_rgb defaultCell.bg false)) := by
  refine ⟨rfl, fun x y hx hy => clear_cellAt s hx hy, ?_⟩
  intro s' ws h
  obtain ⟨bl, hp, rfl⟩ := redraw_inv h
  obtain ⟨bgs, tws, h1, h2, h3⟩ := paint_inv hp
  subst h3
  have hcolor : ∀ w ∈ bgs.flatten ++ tws, w.color = rat_to_rgb defaultCell.bg false := by
    intro w hw
    rcases List.mem_append.mp hw with hw | hw
    · obtain ⟨l, hl, hwl⟩ := List.mem_flatten.mp hw
      obtain ⟨p, hpmem, hfp⟩ := optMapM_mem h1 l hl
      have hb := mem_coordList.mp hpmem
      have hc : (SoftBackend.env (clear s)).buffer.cellAt p.1 p.2 = some defaultCell :=
        clear_cellAt s hb.1 hb.2
      have hcw := draw_cell_background_colors hc hfp w hwl
      rw [hcw]
      decide
    · obtain ⟨p, hpmem, r, hr, hwr⟩ := textPass_writes_mem h2 w hw
      have hb := mem_coordList.mp hpmem
      have hc : (SoftBackend.env (clear s)).buffer.cellAt p.1 p.2 = some defaultCell :=
        clear_cellAt s hb.1 hb.2
      have hdct : draw_cell_text shape (SoftBackend.env (clear s)) p.1 p.2
          = some ([], false) := by
        simp only [draw_cell_text, hc, hblank]
        rfl
      rw [hdct] at hr
      cases hr
      cases hwr
  have hlen : (clear s).rgb_pixmap.data.length =
      (clear s).rgb_pixmap.width * (clear s).rgb_pixmap.height := by
    show (List.replicate (s.rgb_pixmap.width * s.rgb_pixmap.height) _).length = _
    rw [List.length_replicate]
    rfl
  have hstart : (clear s).rgb_pixmap.data =
      List.replicate ((clear s).rgb_pixmap.data.length) (rat_to_rgb defaultCell.bg false) := by
    rw [hlen]
    rfl
  have huni := applyWrites_uniform _ _ hcolor _ hstart
  show (applyWrites (bgs.flatten ++ tws) (clear s).rgb_pixmap).data =
    List.replicate ((applyWrites (bgs.flatten ++ tws) (clear s).rgb_pixmap).width *
      (applyWrites (bgs.flatten ++ tws) (clear s).rgb_pixmap).height)
      (rat_to_rgb defaultCell.bg false)
  rw [applyWrites_width, applyWrites_height, huni, hlen]

/-- Witness for C7 on the sample backend with the empty shaping oracle. -/
theorem c7_clear_witness :
    (∀ x y, x < sampleState.buffer.width → y < sampleState.buffer.height →
      (clear sampleState).buffer.cellAt x y = some defaultCell) ∧
    ∃ s' ws, redraw sampleShape (clear sampleState) = some (s', ws) ∧
      s'.rgb_pixmap.data =
        List.replicate (s'.rgb_pixmap.width * s'.rgb_pixmap.height)
          (rat_to_rgb defaultCell.bg false) := by
  have hcl := c7_clear sampleShape sampleState (by decide)
  obtain ⟨r, hd⟩ := Option.isSome_iff_exists.mp
    (show (redraw sampleShape (clear sampleState)).isSome = true by decide)
  obtain ⟨s1, ws1⟩ := r
  exact ⟨hcl.2.1, s1, ws1, hd, hcl.2.2 s1 ws1 hd⟩


theorem redraw_state_env (s : SoftBackend) (ws : List Write) (bl : List (Nat × Nat)) :
    SoftBackend.env (paintResult { s with always_redraw_list := [] } s.buffer ws bl)
      = SoftBackend.env s := by
  unfold SoftBackend.env paintResult physCellW physCellH
  simp only [applyWrites_width, applyWrites_height]

theorem paintResult_idem (s : SoftBackend) (ws : List Write) (bl : List (Nat × Nat)) :
    paintResult
      { paintResult { s with always_redraw_list := [] } s.buffer ws bl with
        always_redraw_list := [] }
      (paintResult { s with always_redraw_list := [] } s.buffer ws bl).buffer ws bl
      = paintResult { s with always_redraw_list := [] } s.buffer ws bl := by
  unfold paintResult
  simp only [applyWrites_applyWrites]

/-- C6: `redraw` is idempotent — running it again on the state it just
produced, with the same shaping collaborator and no intervening mutation,
returns the very same state (in particular a bit-identical pixel buffer) and
the very same `put_pixel` trace. -/
theorem c6_redraw_idempotent (shape : ShapeFn) (s s1 : SoftBackend) (ws : List Write)
    (h : redraw shape s = some (s1, ws)) :
    redraw shape s1 = some (s1, ws) := by
  obtain ⟨bl, hp, rfl⟩ := redraw_inv h
  have hp2 : paint shape
      (SoftBackend.env (paintResult { s with always_redraw_list := [] } s.buffer ws bl))
      (coordList
        (paintResult { s with always_redraw_list := [] } s.buffer ws bl).buffer.width
        (paintResult { s with always_redraw_list := [] } s.buffer ws bl).buffer.height)
      = some (ws, bl) := by
    rw [redraw_state_env]
    exact hp
  have hred := redraw_eq hp2
  rw [hred]
  show some (paintResult
      { paintResult { s with always_redraw_list := [] } s.buffer ws bl with
        always_redraw_list := [] }
      (paintResult { s with always_redraw_list := [] } s.buffer ws bl).buffer ws bl, ws)
    = some (paintResult { s with always_redraw_list := [] } s.buffer ws bl, ws)
  rw [paintResult_idem]

/-- Witness for C6: a concrete double redraw of the blinking sample backend. -/
theorem c6_redraw_idempotent_witness :
    ∃ s1 ws, redraw sampleShape blinkState = some (s1, ws) ∧
      redraw sampleShape s1 = some (s1, ws) := by
  obtain ⟨r, hd⟩ := Option.isSome_iff_exists.mp
    (show (redraw sampleShape blinkState).isSome = true by decide)
  obtain ⟨s1, ws1⟩ := r
  exact ⟨s1, ws1, hd, c6_redraw_idempotent sampleShape blinkState s1 ws1 hd⟩


end Soft
